import Mathlib

/-!
Verification development for the `hcloverlay` package (go-hcl-overlay).

The Go sources embedded here are `hcloverlay/cli_args.go` and
`hcloverlay/overlay.go`.  External collaborators (the HCL decoding
library: `hcl.Range`, `hcl.BodySchema`, `hcl.BodyContent`, `hcl.Body`,
`hclsyntax.ValidIdentifier`, `hcl.EmptyBody`) are modelled by concrete
Lean structures that realize the documented decoding protocol; the
package's own functions are translated line by line.

Modelling conventions:
  - Go strings are Lean `String`s; byte indexing is modelled as character
    indexing (all inputs of interest are ASCII).
  - `hcl.Attributes` (a Go map from name to attribute) is an association
    list with lookup (`getAttr`) and replace-or-insert (`setAttr`).
  - Expressions are modelled by the string value they evaluate to: the
    overlay package only ever constructs `hcl.StaticExpr(cty.StringVal v, rng)`,
    which is recorded as the pair (value `v`, range `rng`).
  - `hcl.Body` is an inductive: the empty body (`hcl.EmptyBody()`), a
    parsed source body (`raw`, realizing the decoding protocol of the
    external parser), and the overlay wrapper `applyBody` from
    `overlay.go` (`overlaid`).
-/

/-- Model of `hcl.Range`.  The claims only distinguish the zero value
(absent range) from other ranges, so a filename plus start/end offsets
suffice. -/
structure Range where
  filename : String
  startByte : Nat
  endByte : Nat
deriving DecidableEq, Repr

/-- The zero value `hcl.Range` Go-struct literal `hcl.Range{}`. -/
def Range.zero : Range := ⟨"", 0, 0⟩

/-- Model of `hcl.DiagnosticSeverity` (only the two severities used). -/
inductive Severity where
  | error
  | warning
deriving DecidableEq, Repr

/-- Model of `hcl.Diagnostic`: severity, summary, detail and an optional
subject range. -/
structure Diagnostic where
  severity : Severity
  summary : String
  detail : String
  subject : Option Range
deriving DecidableEq, Repr

/-- Model of `hcl.AttributeSchema`: an attribute name plus its Required
flag. -/
structure AttributeSchema where
  name : String
  required : Bool
deriving DecidableEq, Repr

/-- Model of `hcl.BlockHeaderSchema`: a block type plus its ordered label
names. -/
structure BlockHeaderSchema where
  type : String
  labelNames : List String
deriving DecidableEq, Repr

/-- Model of `hcl.BodySchema`: ordered attribute and block specs. -/
structure BodySchema where
  attributes : List AttributeSchema
  blocks : List BlockHeaderSchema
deriving DecidableEq, Repr

/-- Model of `hcl.Attribute`.  `value` is the string the attribute's
expression evaluates to and `rng` the source range of that expression
(`Range.zero` when the attribute was synthesized by an overlay, since
`cli_args.go` builds `hcl.StaticExpr(cty.StringVal(o.val), hcl.Range{})`). -/
structure Attribute where
  name : String
  value : String
  rng : Range
deriving DecidableEq, Repr

/-- Lookup in the `hcl.Attributes` map (modelled as an association list). -/
def getAttr (m : List (String × Attribute)) (k : String) : Option Attribute :=
  (m.find? (fun p => p.1 == k)).map (fun p => p.2)

/-- Replace-or-insert into the `hcl.Attributes` map: models the Go map
assignment `content.Attributes[name] = attr` (replace the binding for the
key when present, otherwise add one). -/
def setAttr : List (String × Attribute) → String → Attribute → List (String × Attribute)
  | [], k, v => [(k, v)]
  | p :: m, k, v => if p.1 == k then (k, v) :: m else p :: setAttr m k v

/-- Model of `cliArgOverlay` (cli_args.go): the concrete path overlay.
`fullPath` is kept verbatim for error messages, `steps` is the
dot-separated path and `val` the replacement value. -/
structure CliArgOverlay where
  fullPath : String
  steps : List String
  val : String
deriving DecidableEq, Repr

/-- Method `cliArgOverlay.subOverlay` (cli_args.go:251-257): a sub-overlay
scoped to the remaining steps, keeping `fullPath` and `val`. -/
def subOverlay (o : CliArgOverlay) (remainingSteps : List String) : CliArgOverlay :=
  { fullPath := o.fullPath, val := o.val, steps := remainingSteps }

/-- Method `cliArgOverlay.labelsMatch` (cli_args.go:259-264).  Two empty
label lists are considered equal; otherwise `reflect.DeepEqual`
(element-wise equality for string slices, modelled by list equality). -/
def labelsMatch (a b : List String) : Bool :=
  if a.isEmpty && b.isEmpty then true
  else a == b

/-- Method `cliArgOverlay.invalidArgError` (cli_args.go:266-272). -/
def invalidArgError (o : CliArgOverlay) : Diagnostic :=
  { severity := .error
  , summary := "Invalid argument"
  , detail := "Unexpected argument \"" ++ o.fullPath ++ "\"."
  , subject := none }

/-- Diagnostic appended by `ParseCLIArgument` (cli_args.go:52-56) when the
equals sign is missing or at the start. -/
def invalidArgumentSyntaxDiag (raw : String) : Diagnostic :=
  { severity := .error
  , summary := "Invalid argument"
  , detail := "Invalid argument \"" ++ raw ++
      "\": must be a configuration setting, followed by an equals sign, and then a value for that setting."
  , subject := none }

/-- Diagnostic appended by `ParseCLIArgument` (cli_args.go:64-68) for a
path component that is not a valid identifier. -/
def invalidComponentDiag (path step : String) : Diagnostic :=
  { severity := .error
  , summary := "Invalid argument"
  , detail := "Invalid component \"" ++ step ++ "\" in argument \"" ++ path ++
      "\": dot-separated parts must be a letter followed by zero or more letters, digits, or underscores."
  , subject := none }

/-- Diagnostic appended by `applyBody.prepareContent` (overlay.go:139-144)
for a required attribute missing from the final content. -/
def missingRequiredDiag (name : String) (missing : Range) : Diagnostic :=
  { severity := .error
  , summary := "Missing required argument"
  , detail := "The argument \"" ++ name ++ "\" is required, but no definition was found."
  , subject := some missing }

/-- Modelled from the spec: diagnostic of the external parser body for a
source attribute not called for by the schema (decoding-protocol detail of
the external HCL library, spec section 6). -/
def unsupportedArgumentDiag (name : String) (rng : Range) : Diagnostic :=
  { severity := .error
  , summary := "Unsupported argument"
  , detail := "An argument named \"" ++ name ++ "\" is not expected here."
  , subject := some rng }

/-- Modelled from the spec: diagnostic of the external parser body for a
source block whose type the schema does not declare (decoding-protocol
detail of the external HCL library, spec section 6). -/
def unsupportedBlockDiag (btype : String) : Diagnostic :=
  { severity := .error
  , summary := "Unsupported block type"
  , detail := "Blocks of type \"" ++ btype ++ "\" are not expected here."
  , subject := none }

mutual
/-- Model of `hcl.Body`: either `hcl.EmptyBody()`, a parsed source body
(attributes, blocks, and the missing-item range of the document), or the
`applyBody` wrapper produced by `ApplyOverlays` (overlay.go:63-76). -/
inductive Body where
  | empty : Body
  | raw (attrs : List Attribute) (blocks : List Block) (missing : Range) : Body
  | overlaid (inner : Body) (overlays : List CliArgOverlay) : Body

/-- Model of `hcl.Block`: type, labels, label ranges and the nested body.
(The unread `DefRange`/`TypeRange` fields are omitted: the package never
reads nor meaningfully writes them.) -/
inductive Block where
  | mk (btype : String) (labels : List String) (labelRanges : List Range)
      (body : Body) : Block
end

def Block.type : Block → String
  | .mk t _ _ _ => t

def Block.labels : Block → List String
  | .mk _ ls _ _ => ls

def Block.labelRanges : Block → List Range
  | .mk _ _ rs _ => rs

def Block.body : Block → Body
  | .mk _ _ _ b => b

/-- Models the Go in-place mutation `block.Body = ...` (cli_args.go:210). -/
def Block.withBody : Block → Body → Block
  | .mk t ls rs _, b => .mk t ls rs b

@[simp] theorem Block.type_mk (t : String) (ls : List String) (rs : List Range) (b : Body) :
    (Block.mk t ls rs b).type = t := rfl

@[simp] theorem Block.labels_mk (t : String) (ls : List String) (rs : List Range) (b : Body) :
    (Block.mk t ls rs b).labels = ls := rfl

@[simp] theorem Block.labelRanges_mk (t : String) (ls : List String) (rs : List Range) (b : Body) :
    (Block.mk t ls rs b).labelRanges = rs := rfl

@[simp] theorem Block.body_mk (t : String) (ls : List String) (rs : List Range) (b : Body) :
    (Block.mk t ls rs b).body = b := rfl

@[simp] theorem Block.withBody_mk (t : String) (ls : List String) (rs : List Range)
    (b b' : Body) : (Block.mk t ls rs b).withBody b' = Block.mk t ls rs b' := rfl

@[simp] theorem Block.type_withBody (blk : Block) (b : Body) :
    (blk.withBody b).type = blk.type := by cases blk; rfl

@[simp] theorem Block.labels_withBody (blk : Block) (b : Body) :
    (blk.withBody b).labels = blk.labels := by cases blk; rfl

@[simp] theorem Block.labelRanges_withBody (blk : Block) (b : Body) :
    (blk.withBody b).labelRanges = blk.labelRanges := by cases blk; rfl

@[simp] theorem Block.body_withBody (blk : Block) (b : Body) :
    (blk.withBody b).body = b := by cases blk; rfl

/-- Model of `hcl.BodyContent`: the attributes map, the block sequence and
the missing-item range carried along from the decoded body. -/
structure BodyContent where
  attributes : List (String × Attribute)
  blocks : List Block
  missingItemRange : Range

/-- Method `Body.MissingItemRange`: `applyBody.MissingItemRange`
(overlay.go:128-130) delegates to the inner body; the empty body and a
source body answer their own marker. -/
def Body.MissingItemRange : Body → Range
  | .empty => Range.zero
  | .raw _ _ missing => missing
  | .overlaid inner _ => inner.MissingItemRange

/-- Function `ApplyOverlays` (overlay.go:63-71): wrapping with an empty
overlay list returns the body unchanged, otherwise builds the `applyBody`
wrapper. -/
def ApplyOverlays (body : Body) (overlays : List CliArgOverlay) : Body :=
  if overlays.isEmpty then body
  else .overlaid body overlays

/-- Loop of `cliArgOverlay.PartialApplyOverlay` over `content.Blocks`
(cli_args.go:202-212): find the first block with the wanted type and
labels and wrap its body with the sub-overlay; `none` when no block
matches. -/
def overlayBlocks (btype : String) (wantLabels : List String) (sub : CliArgOverlay) :
    List Block → Option (List Block)
  | [] => none
  | b :: rest =>
    if b.type == btype && labelsMatch b.labels wantLabels then
      some (b.withBody (ApplyOverlays b.body [sub]) :: rest)
    else
      match overlayBlocks btype wantLabels sub rest with
      | some rest' => some (b :: rest')
      | none => none

/-- Method `cliArgOverlay.PartialApplyOverlay` (cli_args.go:157-232).
Returns the (mutated) content, the leftover overlay (`none` when fully
applied) and diagnostics.  `o.steps` is never empty for overlays built by
`ParseCLIArgument` (Go would panic on `o.steps[0]` otherwise); the `[]`
case is the unreachable no-op. -/
def PartialApplyOverlay (o : CliArgOverlay) (content : BodyContent) (schema : BodySchema) :
    BodyContent × Option CliArgOverlay × List Diagnostic :=
  match o.steps with
  | [] => (content, none, [])
  | name :: _ =>
    match schema.attributes.find? (fun attrS => attrS.name == name) with
    | some _ =>
      if o.steps.length != 1 then
        (content, none, [invalidArgError o])
      else
        let newAttrs := setAttr content.attributes name (Attribute.mk name o.val Range.zero)
        ({ content with attributes := newAttrs }, none, [])
    | none =>
      match schema.blocks.find? (fun blockS => blockS.type == name) with
      | some blockS =>
        let needStepCount := 1 + 1 + blockS.labelNames.length
        if o.steps.length < needStepCount then
          (content, none, [invalidArgError o])
        else
          let wantLabels := (o.steps.drop 1).take blockS.labelNames.length
          let remainingSteps := o.steps.drop (wantLabels.length + 1)
          let sub := subOverlay o remainingSteps
          match overlayBlocks blockS.type wantLabels sub content.blocks with
          | some newBlocks => ({ content with blocks := newBlocks }, none, [])
          | none =>
            let newBlock := Block.mk blockS.type wantLabels
              (List.replicate wantLabels.length Range.zero)
              (ApplyOverlays Body.empty [sub])
            ({ content with blocks := content.blocks ++ [newBlock] }, none, [])
      | none => (content, some o, [])

/-- Method `cliArgOverlay.ApplyOverlay` (cli_args.go:147-155): partial
application, escalating a leftover to an invalid-argument error. -/
def ApplyOverlay (o : CliArgOverlay) (content : BodyContent) (schema : BodySchema) :
    BodyContent × List Diagnostic :=
  let r := PartialApplyOverlay o content schema
  match r.2.1 with
  | some _ => (r.1, r.2.2 ++ [invalidArgError o])
  | none => (r.1, r.2.2)

/-- Method `cliArgOverlay.ApplyJustAttributes` (cli_args.go:234-249). -/
def ApplyJustAttributes (o : CliArgOverlay) (attrs : List (String × Attribute)) :
    List (String × Attribute) × List Diagnostic :=
  if o.steps.length != 1 then
    (attrs, [invalidArgError o])
  else
    (setAttr attrs (o.steps.headD "") (Attribute.mk (o.steps.headD "") o.val Range.zero), [])

/-- Method `applyBody.schemaNoRequired` (overlay.go:151-165): same schema
with every attribute's Required flag cleared. -/
def schemaNoRequired (given : BodySchema) : BodySchema :=
  { attributes := given.attributes.map (fun a => { a with required := false })
  , blocks := given.blocks }

/-- Method `applyBody.prepareContent` (overlay.go:132-149): append one
missing-required diagnostic, anchored at the body's missing-item range,
for each required schema attribute absent from the result. -/
def prepareContent (result : BodyContent) (schema : BodySchema)
    (diags : List Diagnostic) (missing : Range) : BodyContent × List Diagnostic :=
  (result,
   diags ++ schema.attributes.filterMap (fun attrS =>
     if attrS.required && !(getAttr result.attributes attrS.name).isSome then
       some (missingRequiredDiag attrS.name missing)
     else none))

/-- The fold in `applyBody.Content` (overlay.go:85-89): apply each overlay
in order, each observing the previous result, accumulating diagnostics. -/
def foldApplyOverlays : List CliArgOverlay → BodyContent → BodySchema →
    BodyContent × List Diagnostic
  | [], c, _ => (c, [])
  | ov :: rest, c, schema =>
    let r := ApplyOverlay ov c schema
    let r2 := foldApplyOverlays rest r.1 schema
    (r2.1, r.2 ++ r2.2)

/-- Modelled from the spec: full decode of a parsed source body (the
external HCL parser's `Content`, decoding-protocol of spec section 6):
schema-matched attributes and blocks are kept in source order, unexpected
items and missing required attributes are diagnosed. -/
def rawContent (attrs : List Attribute) (blocks : List Block) (missing : Range)
    (schema : BodySchema) : BodyContent × List Diagnostic :=
  let matchedAttrs := attrs.filter (fun a => schema.attributes.any (fun s => s.name == a.name))
  let contentBlocks := blocks.filter (fun b => schema.blocks.any (fun s => s.type == b.type))
  let extraAttrDiags := (attrs.filter
      (fun a => !schema.attributes.any (fun s => s.name == a.name))).map
      (fun a => unsupportedArgumentDiag a.name a.rng)
  let extraBlockDiags := (blocks.filter
      (fun b => !schema.blocks.any (fun s => s.type == b.type))).map
      (fun b => unsupportedBlockDiag b.type)
  let missingDiags := schema.attributes.filterMap (fun s =>
    if s.required && !attrs.any (fun a => a.name == s.name) then
      some (missingRequiredDiag s.name missing)
    else none)
  (⟨matchedAttrs.map (fun a => (a.name, a)), contentBlocks, missing⟩,
   extraAttrDiags ++ extraBlockDiags ++ missingDiags)

/-- Method `Body.Content`.  For the `applyBody` wrapper this is
`applyBody.Content` (overlay.go:78-92): decode the inner body under the
relaxed schema, fold the overlays over the result, then run
`prepareContent` against the original schema.  The empty body decodes to
empty content with no diagnostics (`hcl.emptyBody`); a source body decodes
per the external parser model `rawContent`. -/
def Body.Content : Body → BodySchema → BodyContent × List Diagnostic
  | .empty, _ => (⟨[], [], Range.zero⟩, [])
  | .raw attrs blocks missing, schema => rawContent attrs blocks missing schema
  | .overlaid inner ovs, schema =>
    let modSchema := schemaNoRequired schema
    let r0 := Body.Content inner modSchema
    let r1 := foldApplyOverlays ovs r0.1 modSchema
    prepareContent r1.1 schema (r0.2 ++ r1.2) inner.MissingItemRange

/-- Modelled from the spec: `hclsyntax.ValidIdentifier` (external), per the
spec's invariant: a letter followed by zero or more letters, digits, or
underscores. -/
def ValidIdentifier (s : String) : Bool :=
  match s.data with
  | [] => false
  | c :: rest => c.isAlpha && rest.all (fun ch => ch.isAlpha || ch.isDigit || ch == '_')

/-- Model of `strings.Split(path, ".")`: split a character list on dots
(always at least one segment, possibly empty). -/
def splitDots : List Char → List (List Char)
  | [] => [[]]
  | c :: rest =>
    if c == '.' then [] :: splitDots rest
    else
      match splitDots rest with
      | s :: ss => (c :: s) :: ss
      | [] => [[c]]

/-- Function `ParseCLIArgument` (cli_args.go:48-80). -/
def ParseCLIArgument (raw : String) : Option CliArgOverlay × List Diagnostic :=
  match raw.data.findIdx? (fun c => c == '=') with
  | none => (none, [invalidArgumentSyntaxDiag raw])
  | some eq =>
    if eq < 1 then (none, [invalidArgumentSyntaxDiag raw])
    else
      let path := String.mk (raw.data.take eq)
      let val := String.mk (raw.data.drop (eq + 1))
      let steps := (splitDots path.data).map String.mk
      let badDiags := (steps.filter (fun s => !ValidIdentifier s)).map
          (fun s => invalidComponentDiag path s)
      if !badDiags.isEmpty then (none, badDiags)
      else (some ⟨path, steps, val⟩, [])

/-- Model of `strings.HasPrefix(arg, "--")`. -/
def hasDashDashPrefix (s : String) : Bool :=
  match s.data with
  | '-' :: '-' :: _ => true
  | _ => false

/-- Loop of `ExtractCLIOptions` (cli_args.go:100-136): collect overlays,
assemble the (ultimately unused) filtered remainder, and accumulate
diagnostics. -/
def extractCLIOptionsLoop (schema : BodySchema) :
    List String → List CliArgOverlay × List String × List Diagnostic
  | [] => ([], [], [])
  | arg :: rest =>
    if arg == "--" then
      -- literal terminator: everything after it goes to the remainder
      ([], rest, [])
    else if !hasDashDashPrefix arg then
      let r := extractCLIOptionsLoop schema rest
      (r.1, arg :: r.2.1, r.2.2)
    else
      let raw := String.mk (arg.data.drop 2)
      let mtch := match raw.data.findIdx? (fun c => c == '.' || c == '=') with
        | some sep => String.mk (raw.data.take sep)
        | none => raw
      let matched := schema.attributes.any (fun attrS => attrS.name == mtch)
        || schema.blocks.any (fun blockS => blockS.type == mtch)
      if !matched then
        extractCLIOptionsLoop schema rest
      else
        let p := ParseCLIArgument raw
        let r := extractCLIOptionsLoop schema rest
        (p.1.toList ++ r.1, r.2.1, p.2 ++ r.2.2)

/-- Function `ExtractCLIOptions` (cli_args.go:95-139).  Note that the
source returns `args` itself as the remaining-argument result
(cli_args.go:138), not the filtered remainder assembled by the loop. -/
def ExtractCLIOptions (args : List String) (schema : BodySchema) :
    List CliArgOverlay × List String × List Diagnostic :=
  let r := extractCLIOptionsLoop schema args
  (r.1, args, r.2.2)

/-- Pointwise equivalence of decoded contents relative to a relation `R`
on nested block bodies: equal attribute maps, equal missing-item ranges,
and blocks equal header-wise in the same order with `R`-related bodies. -/
def ContentEquivWith (R : Body → Body → Prop) (c1 c2 : BodyContent) : Prop :=
  c1.attributes = c2.attributes ∧
  c1.missingItemRange = c2.missingItemRange ∧
  List.Forall₂ (fun b1 b2 =>
    b1.type = b2.type ∧ b1.labels = b2.labels ∧
    b1.labelRanges = b2.labelRanges ∧ R b1.body b2.body) c1.blocks c2.blocks

/-- Observational equivalence of bodies to decode-depth `n`: at depth
`n + 1`, decoding under any schema yields contents that agree on
attributes and block headers, with nested bodies equivalent to depth `n`. -/
def BodyEquivN : Nat → Body → Body → Prop
  | 0, _, _ => True
  | n + 1, b1, b2 => ∀ s : BodySchema,
      ContentEquivWith (BodyEquivN n) (b1.Content s).1 (b2.Content s).1

/-! ## Supporting lemmas -/

theorem getAttr_setAttr (m : List (String × Attribute)) (k : String) (v : Attribute) :
    getAttr (setAttr m k v) k = some v := by
  induction m with
  | nil => simp [getAttr, setAttr]
  | cons p m ih =>
    by_cases hp : (p.1 == k) = true
    · simp [getAttr, setAttr, hp]
    · have hp' : (p.1 == k) = false := by simpa using hp
      simp only [setAttr, hp', Bool.false_eq_true, if_false]
      simpa [getAttr, List.find?_cons, hp'] using ih

theorem setAttr_setAttr_same (m : List (String × Attribute)) (k : String) (v : Attribute) :
    setAttr (setAttr m k v) k v = setAttr m k v := by
  induction m with
  | nil => simp [setAttr]
  | cons p m ih =>
    by_cases hp : (p.1 == k) = true
    · simp [setAttr, hp]
    · have hp' : (p.1 == k) = false := by simpa using hp
      simp [setAttr, hp', ih]

theorem labelsMatch_refl (a : List String) : labelsMatch a a = true := by
  cases a with
  | nil => rfl
  | cons x xs => simp [labelsMatch]

theorem overlayBlocks_first (t : String) (w : List String) (sub : CliArgOverlay)
    (pre post : List Block) (blk : Block)
    (hpre : ∀ b ∈ pre, (b.type == t && labelsMatch b.labels w) = false)
    (hblk : (blk.type == t && labelsMatch blk.labels w) = true) :
    overlayBlocks t w sub (pre ++ blk :: post) =
      some (pre ++ blk.withBody (ApplyOverlays blk.body [sub]) :: post) := by
  induction pre with
  | nil => simp [overlayBlocks, hblk]
  | cons b pre ih =>
    have hb := hpre b (List.mem_cons_self b pre)
    have hrec := ih (fun x hx => hpre x (List.mem_cons_of_mem b hx))
    simp [overlayBlocks, hb, hrec]

theorem overlayBlocks_none (t : String) (w : List String) (sub : CliArgOverlay)
    (bs : List Block)
    (h : ∀ b ∈ bs, (b.type == t && labelsMatch b.labels w) = false) :
    overlayBlocks t w sub bs = none := by
  induction bs with
  | nil => rfl
  | cons b bs ih =>
    have hb := h b (List.mem_cons_self b bs)
    have hrec := ih (fun x hx => h x (List.mem_cons_of_mem b hx))
    simp [overlayBlocks, hb, hrec]

theorem overlayBlocks_eq_none (t : String) (w : List String) (sub : CliArgOverlay)
    (bs : List Block) (h : overlayBlocks t w sub bs = none) :
    ∀ b ∈ bs, (b.type == t && labelsMatch b.labels w) = false := by
  induction bs with
  | nil => intro b hb; simp at hb
  | cons b bs ih =>
    intro x hx
    by_cases hb : (b.type == t && labelsMatch b.labels w) = true
    · simp [overlayBlocks, hb] at h
    · have hb' : (b.type == t && labelsMatch b.labels w) = false := by simpa using hb
      have hrec : overlayBlocks t w sub bs = none := by
        by_contra hne
        cases hrest : overlayBlocks t w sub bs with
        | none => exact hne hrest
        | some r => simp [overlayBlocks, hb', hrest] at h
      rcases List.mem_cons.mp hx with he | hm
      · rw [he]; exact hb'
      · exact ih hrec x hm

theorem overlayBlocks_eq_some (t : String) (w : List String) (sub : CliArgOverlay)
    (bs bs' : List Block) (h : overlayBlocks t w sub bs = some bs') :
    ∃ pre blk post, bs = pre ++ blk :: post ∧
      (∀ b ∈ pre, (b.type == t && labelsMatch b.labels w) = false) ∧
      (blk.type == t && labelsMatch blk.labels w) = true ∧
      bs' = pre ++ blk.withBody (ApplyOverlays blk.body [sub]) :: post := by
  induction bs generalizing bs' with
  | nil => simp [overlayBlocks] at h
  | cons b bs ih =>
    by_cases hb : (b.type == t && labelsMatch b.labels w) = true
    · refine ⟨[], b, bs, by simp, by simp, hb, ?_⟩
      simp [overlayBlocks, hb] at h
      simp [← h]
    · have hb' : (b.type == t && labelsMatch b.labels w) = false := by simpa using hb
      cases hrest : overlayBlocks t w sub bs with
      | none => simp [overlayBlocks, hb', hrest] at h
      | some r =>
        have hr : b :: r = bs' := by simpa [overlayBlocks, hb', hrest] using h
        obtain ⟨pre, blk, post, hbs, hpre, hblk, hres⟩ := ih r hrest
        refine ⟨b :: pre, blk, post, by simp [hbs], ?_, hblk, by simp [← hr, hres]⟩
        intro x hx
        rcases List.mem_cons.mp hx with he | hm
        · rw [he]; exact hb'
        · exact hpre x hm

theorem PAO_nil (o : CliArgOverlay) (c : BodyContent) (s : BodySchema)
    (hsteps : o.steps = []) :
    PartialApplyOverlay o c s = (c, none, []) := by
  simp [PartialApplyOverlay, hsteps]

theorem PAO_attr_single (o : CliArgOverlay) (name : String) (c : BodyContent)
    (s : BodySchema) (attrS : AttributeSchema)
    (hsteps : o.steps = [name])
    (hattr : s.attributes.find? (fun attrS => attrS.name == name) = some attrS) :
    PartialApplyOverlay o c s =
      ({ c with attributes := setAttr c.attributes name (Attribute.mk name o.val Range.zero) },
       none, []) := by
  simp [PartialApplyOverlay, hsteps, hattr]

theorem PAO_attr_multi (o : CliArgOverlay) (name : String) (rest : List String)
    (c : BodyContent) (s : BodySchema) (attrS : AttributeSchema)
    (hsteps : o.steps = name :: rest) (hrest : rest ≠ [])
    (hattr : s.attributes.find? (fun attrS => attrS.name == name) = some attrS) :
    PartialApplyOverlay o c s = (c, none, [invalidArgError o]) := by
  have hlen : rest.length ≠ 0 := by simpa using fun h => hrest (List.length_eq_zero.mp h)
  simp [PartialApplyOverlay, hsteps, hattr, hlen]

theorem PAO_block_short (o : CliArgOverlay) (name : String) (rest : List String)
    (c : BodyContent) (s : BodySchema) (blockS : BlockHeaderSchema)
    (hsteps : o.steps = name :: rest)
    (hattr : s.attributes.find? (fun attrS => attrS.name == name) = none)
    (hblk : s.blocks.find? (fun blockS => blockS.type == name) = some blockS)
    (hshort : rest.length + 1 < 2 + blockS.labelNames.length) :
    PartialApplyOverlay o c s = (c, none, [invalidArgError o]) := by
  have h : (name :: rest).length < 1 + 1 + blockS.labelNames.length := by
    simp only [List.length_cons]; omega
  simp [PartialApplyOverlay, hsteps, hattr, hblk, h]
  intro h2
  exfalso
  omega

theorem PAO_block_long (o : CliArgOverlay) (name : String) (rest : List String)
    (c : BodyContent) (s : BodySchema) (blockS : BlockHeaderSchema)
    (hsteps : o.steps = name :: rest)
    (hattr : s.attributes.find? (fun attrS => attrS.name == name) = none)
    (hblk : s.blocks.find? (fun blockS => blockS.type == name) = some blockS)
    (hlen : 2 + blockS.labelNames.length ≤ rest.length + 1) :
    PartialApplyOverlay o c s =
      (match overlayBlocks blockS.type (rest.take blockS.labelNames.length)
          (subOverlay o (rest.drop blockS.labelNames.length)) c.blocks with
       | some newBlocks => ({ c with blocks := newBlocks }, none, [])
       | none =>
         ({ c with blocks := c.blocks ++
             [Block.mk blockS.type (rest.take blockS.labelNames.length)
               (List.replicate blockS.labelNames.length Range.zero)
               (ApplyOverlays Body.empty
                 [subOverlay o (rest.drop blockS.labelNames.length)])] }, none, [])) := by
  have hnotlt : ¬ ((name :: rest).length < 1 + 1 + blockS.labelNames.length) := by
    simp only [List.length_cons]; omega
  have hmin : min blockS.labelNames.length rest.length = blockS.labelNames.length := by
    omega
  simp [PartialApplyOverlay, hsteps, hattr, hblk, hnotlt, hmin]
  intro h2
  exfalso
  omega

theorem PAO_nomatch (o : CliArgOverlay) (name : String) (rest : List String)
    (c : BodyContent) (s : BodySchema)
    (hsteps : o.steps = name :: rest)
    (hattr : s.attributes.find? (fun attrS => attrS.name == name) = none)
    (hblk : s.blocks.find? (fun blockS => blockS.type == name) = none) :
    PartialApplyOverlay o c s = (c, some o, []) := by
  simp [PartialApplyOverlay, hsteps, hattr, hblk]

theorem ApplyOverlay_of_none (o : CliArgOverlay) (c : BodyContent) (s : BodySchema)
    (x : BodyContent) (d : List Diagnostic)
    (h : PartialApplyOverlay o c s = (x, none, d)) :
    ApplyOverlay o c s = (x, d) := by
  simp [ApplyOverlay, h]

theorem ApplyOverlay_of_some (o : CliArgOverlay) (c : BodyContent) (s : BodySchema)
    (x : BodyContent) (r : CliArgOverlay) (d : List Diagnostic)
    (h : PartialApplyOverlay o c s = (x, some r, d)) :
    ApplyOverlay o c s = (x, d ++ [invalidArgError o]) := by
  simp [ApplyOverlay, h]

theorem schemaNoRequired_idem (s : BodySchema) :
    schemaNoRequired (schemaNoRequired s) = schemaNoRequired s := by
  simp only [schemaNoRequired, List.map_map]
  rfl

theorem Content_overlaid_fst (inner : Body) (ovs : List CliArgOverlay) (s : BodySchema) :
    ((Body.overlaid inner ovs).Content s).1 =
      (foldApplyOverlays ovs (inner.Content (schemaNoRequired s)).1 (schemaNoRequired s)).1 := by
  simp [Body.Content, prepareContent]

theorem Content_overlaid_single_fst (x : Body) (ov : CliArgOverlay) (s : BodySchema) :
    ((Body.overlaid x [ov]).Content s).1 =
      (ApplyOverlay ov (x.Content (schemaNoRequired s)).1 (schemaNoRequired s)).1 := by
  rw [Content_overlaid_fst]
  simp [foldApplyOverlays]

theorem contentEquivWith_refl (R : Body → Body → Prop) (hR : ∀ b, R b b) (c : BodyContent) :
    ContentEquivWith R c c :=
  ⟨rfl, rfl, List.forall₂_same.mpr (fun x _ => ⟨rfl, rfl, rfl, hR x.body⟩)⟩

theorem bodyEquivN_refl : ∀ (n : Nat) (b : Body), BodyEquivN n b b
  | 0, _ => by simp [BodyEquivN]
  | n + 1, _ => fun _ => contentEquivWith_refl _ (bodyEquivN_refl n) _

theorem ApplyOverlay_twice_equiv (fuel : Nat) :
    ∀ (o : CliArgOverlay), o.steps.length ≤ fuel →
    ∀ (n : Nat) (c : BodyContent) (s : BodySchema),
      ContentEquivWith (BodyEquivN n)
        ((ApplyOverlay o (ApplyOverlay o c s).1 s).1) ((ApplyOverlay o c s).1) := by
  induction fuel with
  | zero =>
    intro o hlen n c s
    have hsteps : o.steps = [] := List.length_eq_zero.mp (Nat.le_zero.mp hlen)
    have h1 : ApplyOverlay o c s = (c, []) :=
      ApplyOverlay_of_none o c s c [] (PAO_nil o c s hsteps)
    simp only [h1]
    exact contentEquivWith_refl _ (bodyEquivN_refl n) c
  | succ fuel ih =>
    intro o hlen n c s
    cases hsteps : o.steps with
    | nil =>
      have h1 : ApplyOverlay o c s = (c, []) :=
        ApplyOverlay_of_none o c s c [] (PAO_nil o c s hsteps)
      simp only [h1]
      exact contentEquivWith_refl _ (bodyEquivN_refl n) c
    | cons name rest =>
      cases hattr : s.attributes.find? (fun attrS => attrS.name == name) with
      | some attrS =>
        cases rest with
        | nil =>
          have hp1 := PAO_attr_single o name c s attrS hsteps hattr
          have h1 := ApplyOverlay_of_none o c s _ _ hp1
          have hp2 := PAO_attr_single o name ({ c with attributes := setAttr c.attributes name (Attribute.mk name o.val Range.zero) }) s attrS hsteps hattr
          have h2 := ApplyOverlay_of_none o _ s _ _ hp2
          simp only [h1, h2]
          exact ⟨by simp [setAttr_setAttr_same], rfl,
            List.forall₂_same.mpr (fun x _ => ⟨rfl, rfl, rfl, bodyEquivN_refl n _⟩)⟩
        | cons r rs =>
          have hp1 := PAO_attr_multi o name (r :: rs) c s attrS hsteps (by simp) hattr
          have h1 := ApplyOverlay_of_none o c s _ _ hp1
          simp only [h1]
          exact contentEquivWith_refl _ (bodyEquivN_refl n) c
      | none =>
        cases hblks : s.blocks.find? (fun blockS => blockS.type == name) with
        | none =>
          have hp1 := PAO_nomatch o name rest c s hsteps hattr hblks
          have h1 := ApplyOverlay_of_some o c s _ _ _ hp1
          simp only [h1]
          exact contentEquivWith_refl _ (bodyEquivN_refl n) c
        | some blockS =>
          by_cases hshort : rest.length + 1 < 2 + blockS.labelNames.length
          · have hp1 := PAO_block_short o name rest c s blockS hsteps hattr hblks hshort
            have h1 := ApplyOverlay_of_none o c s _ _ hp1
            simp only [h1]
            exact contentEquivWith_refl _ (bodyEquivN_refl n) c
          · have hlen2 : 2 + blockS.labelNames.length ≤ rest.length + 1 := by omega
            have hp1 := PAO_block_long o name rest c s blockS hsteps hattr hblks hlen2
            set w := rest.take blockS.labelNames.length with hw_def
            set sub := subOverlay o (rest.drop blockS.labelNames.length) with hsub_def
            have hsubfuel : sub.steps.length ≤ fuel := by
              have h0 : o.steps.length ≤ fuel + 1 := hlen
              rw [hsteps] at h0
              simp only [List.length_cons] at h0
              simp only [hsub_def, subOverlay, List.length_drop]
              omega
            have dw : ∀ (x : Body) (m : Nat),
                BodyEquivN m (Body.overlaid (Body.overlaid x [sub]) [sub])
                  (Body.overlaid x [sub]) := by
              intro x m
              cases m with
              | zero => simp [BodyEquivN]
              | succ m' =>
                simp only [BodyEquivN]
                intro s'
                have e1 : ((Body.overlaid (Body.overlaid x [sub]) [sub]).Content s').1 = (ApplyOverlay sub (ApplyOverlay sub ((x.Content (schemaNoRequired s')).1) (schemaNoRequired s')).1 (schemaNoRequired s')).1 := by
                  rw [Content_overlaid_single_fst, Content_overlaid_single_fst,
                    schemaNoRequired_idem]
                have e2 : ((Body.overlaid x [sub]).Content s').1 = (ApplyOverlay sub ((x.Content (schemaNoRequired s')).1) (schemaNoRequired s')).1 :=
                  Content_overlaid_single_fst x _ s'
                rw [e1, e2]
                exact ih _ hsubfuel m' _ _
            cases hob : overlayBlocks blockS.type w sub c.blocks with
            | some newBlocks =>
              obtain ⟨pre, blk, post, hbs, hpre, hblk2, hres⟩ :=
                overlayBlocks_eq_some _ _ _ _ _ hob
              have h1 : ApplyOverlay o c s = ({ c with blocks := newBlocks }, []) :=
                ApplyOverlay_of_none o c s _ _ (by rw [hp1, hob])
              have hp2 := PAO_block_long o name rest ({ c with blocks := newBlocks }) s blockS hsteps hattr hblks hlen2
              have hmatch1 : ((blk.withBody (ApplyOverlays blk.body [sub])).type == blockS.type && labelsMatch (blk.withBody (ApplyOverlays blk.body [sub])).labels w) = true := by
                simpa using hblk2
              have hob2 : overlayBlocks blockS.type w sub ({ c with blocks := newBlocks } : BodyContent).blocks = some (pre ++ (blk.withBody (ApplyOverlays blk.body [sub])).withBody (ApplyOverlays (blk.withBody (ApplyOverlays blk.body [sub])).body [sub]) :: post) := by
                show overlayBlocks _ _ _ newBlocks = _
                rw [hres]
                exact overlayBlocks_first _ _ _ pre post _ hpre hmatch1
              have h2 : ApplyOverlay o ({ c with blocks := newBlocks }) s = ({ c with blocks := pre ++ (blk.withBody (ApplyOverlays blk.body [sub])).withBody (ApplyOverlays (blk.withBody (ApplyOverlays blk.body [sub])).body [sub]) :: post }, []) :=
                ApplyOverlay_of_none o _ s _ _ (by rw [hp2, hob2])
              simp only [h1, h2]
              refine ⟨rfl, rfl, ?_⟩
              show List.Forall₂ _ _ newBlocks
              rw [hres]
              apply List.rel_append
              · exact List.forall₂_same.mpr (fun x _ => ⟨rfl, rfl, rfl, bodyEquivN_refl n _⟩)
              · refine List.Forall₂.cons ⟨by simp, by simp, by simp, ?_⟩
                  (List.forall₂_same.mpr (fun x _ => ⟨rfl, rfl, rfl, bodyEquivN_refl n _⟩))
                simpa [ApplyOverlays] using dw blk.body n
            | none =>
              have h1 : ApplyOverlay o c s = ({ c with blocks := c.blocks ++ [Block.mk blockS.type w (List.replicate blockS.labelNames.length Range.zero) (ApplyOverlays Body.empty [sub])] }, []) :=
                ApplyOverlay_of_none o c s _ _ (by rw [hp1, hob])
              have hnone := overlayBlocks_eq_none _ _ _ _ hob
              have hmatch1 : ((Block.mk blockS.type w (List.replicate blockS.labelNames.length Range.zero) (ApplyOverlays Body.empty [sub])).type == blockS.type && labelsMatch (Block.mk blockS.type w (List.replicate blockS.labelNames.length Range.zero) (ApplyOverlays Body.empty [sub])).labels w) = true := by
                simp [labelsMatch_refl]
              have hob2 := overlayBlocks_first blockS.type w sub c.blocks [] (Block.mk blockS.type w (List.replicate blockS.labelNames.length Range.zero) (ApplyOverlays Body.empty [sub])) hnone hmatch1
              have hp2 := PAO_block_long o name rest ({ c with blocks := c.blocks ++ [Block.mk blockS.type w (List.replicate blockS.labelNames.length Range.zero) (ApplyOverlays Body.empty [sub])] }) s blockS hsteps hattr hblks hlen2
              have h2 : ApplyOverlay o ({ c with blocks := c.blocks ++ [Block.mk blockS.type w (List.replicate blockS.labelNames.length Range.zero) (ApplyOverlays Body.empty [sub])] }) s = ({ c with blocks := c.blocks ++ [(Block.mk blockS.type w (List.replicate blockS.labelNames.length Range.zero) (ApplyOverlays Body.empty [sub])).withBody (ApplyOverlays (ApplyOverlays Body.empty [sub]) [sub])] }, []) := by
                apply ApplyOverlay_of_none o _ s _ _
                rw [hp2]
                simp only []
                rw [← hw_def, ← hsub_def, hob2]
                simp [ApplyOverlays]
              simp only [h1, h2]
              refine ⟨rfl, rfl, ?_⟩
              apply List.rel_append
              · exact List.forall₂_same.mpr (fun x _ => ⟨rfl, rfl, rfl, bodyEquivN_refl n _⟩)
              · refine List.Forall₂.cons ⟨by simp, by simp, by simp, ?_⟩ List.Forall₂.nil
                simpa [ApplyOverlays] using dw Body.empty n

/-! ## Claim theorems -/

/-- C1: for every attribute name `a` declared in the schema and every value
`v`, applying the single-step overlay `a=v` via `PartialApplyOverlay` (and
hence `ApplyOverlay`) replaces or inserts attribute `a` in the content with
the literal string value `v` carrying a zero (absent) source range, and
returns no leftover overlay and no diagnostics; the decoded content then
has `a` equal to `v`. -/
theorem claim_C1_single_attribute_overlay (p a v : String) (c : BodyContent) (s : BodySchema)
    (h : ∃ attrS ∈ s.attributes, attrS.name = a) :
    PartialApplyOverlay ⟨p, [a], v⟩ c s =
      ({ c with attributes := setAttr c.attributes a (Attribute.mk a v Range.zero) }, none, []) ∧
    ApplyOverlay ⟨p, [a], v⟩ c s =
      ({ c with attributes := setAttr c.attributes a (Attribute.mk a v Range.zero) }, []) ∧
    getAttr (setAttr c.attributes a (Attribute.mk a v Range.zero)) a =
      some (Attribute.mk a v Range.zero) := by
  obtain ⟨attrS, hmem, hname⟩ := h
  have hsome : (s.attributes.find? (fun attrS => attrS.name == a)).isSome := by
    rw [List.find?_isSome]
    exact ⟨attrS, hmem, by simp [hname]⟩
  obtain ⟨x, hfind⟩ := Option.isSome_iff_exists.mp hsome
  have hp := PAO_attr_single ⟨p, [a], v⟩ a c s x rfl hfind
  exact ⟨hp, ApplyOverlay_of_none _ _ _ _ _ hp, getAttr_setAttr _ _ _⟩

theorem claim_C1_witness :
    (∃ attrS ∈ ([⟨"a", true⟩] : List AttributeSchema), attrS.name = "a") ∧
    (PartialApplyOverlay ⟨"a", ["a"], "v"⟩ ⟨[], [], Range.zero⟩ ⟨[⟨"a", true⟩], []⟩ =
       (⟨[("a", Attribute.mk "a" "v" Range.zero)], [], Range.zero⟩, none, []) ∧
     ApplyOverlay ⟨"a", ["a"], "v"⟩ ⟨[], [], Range.zero⟩ ⟨[⟨"a", true⟩], []⟩ =
       (⟨[("a", Attribute.mk "a" "v" Range.zero)], [], Range.zero⟩, []) ∧
     getAttr (setAttr [] "a" (Attribute.mk "a" "v" Range.zero)) "a" =
       some (Attribute.mk "a" "v" Range.zero)) :=
  ⟨⟨⟨"a", true⟩, by simp, rfl⟩,
   claim_C1_single_attribute_overlay "a" "a" "v" ⟨[], [], Range.zero⟩ ⟨[⟨"a", true⟩], []⟩
     ⟨⟨"a", true⟩, by simp, rfl⟩⟩

/-- C2: when the first step matches a block spec and the content contains a
block with matching type and labels (component-wise, empty lists equal),
`PartialApplyOverlay` wraps only the nested body of the first such block in
document order with the sub-overlay; every other block (including later
blocks with an identical header) and every attribute remain unchanged. -/
theorem claim_C2_first_matching_block_only (p v name : String) (rest : List String)
    (c : BodyContent) (s : BodySchema) (blockS : BlockHeaderSchema)
    (pre post : List Block) (blk : Block)
    (hattr : s.attributes.find? (fun attrS => attrS.name == name) = none)
    (hblk : s.blocks.find? (fun blockS => blockS.type == name) = some blockS)
    (hlen : 2 + blockS.labelNames.length ≤ rest.length + 1)
    (hc : c.blocks = pre ++ blk :: post)
    (hpre : ∀ b ∈ pre, (b.type == blockS.type &&
      labelsMatch b.labels (rest.take blockS.labelNames.length)) = false)
    (hmatch : (blk.type == blockS.type &&
      labelsMatch blk.labels (rest.take blockS.labelNames.length)) = true) :
    PartialApplyOverlay ⟨p, name :: rest, v⟩ c s =
      ({ c with blocks := pre ++ blk.withBody (Body.overlaid blk.body [⟨p, rest.drop blockS.labelNames.length, v⟩]) :: post }, none, []) := by
  have hp := PAO_block_long ⟨p, name :: rest, v⟩ name rest c s blockS rfl hattr hblk hlen
  have hob : overlayBlocks blockS.type (rest.take blockS.labelNames.length)
      (subOverlay ⟨p, name :: rest, v⟩ (rest.drop blockS.labelNames.length)) c.blocks =
      some (pre ++ blk.withBody (ApplyOverlays blk.body
        [subOverlay ⟨p, name :: rest, v⟩ (rest.drop blockS.labelNames.length)]) :: post) := by
    rw [hc]
    exact overlayBlocks_first _ _ _ pre post blk hpre hmatch
  rw [hp, hob]
  simp [ApplyOverlays, subOverlay]

theorem claim_C2_witness :
    (List.find? (fun attrS => attrS.name == "block") ([] : List AttributeSchema) = none ∧
     List.find? (fun blockS => blockS.type == "block")
       [BlockHeaderSchema.mk "block" ["name"]] = some (BlockHeaderSchema.mk "block" ["name"]) ∧
     2 + 1 ≤ 2 + 1 ∧
     (∀ b ∈ [Block.mk "block" ["a"] [Range.zero] Body.empty],
       (b.type == "block" && labelsMatch b.labels ["b"]) = false) ∧
     ((Block.mk "block" ["b"] [Range.zero] Body.empty).type == "block" &&
       labelsMatch (Block.mk "block" ["b"] [Range.zero] Body.empty).labels ["b"]) = true) ∧
    PartialApplyOverlay ⟨"block.b.foo", ["block", "b", "foo"], "x"⟩
      ⟨[], [Block.mk "block" ["a"] [Range.zero] Body.empty,
            Block.mk "block" ["b"] [Range.zero] Body.empty,
            Block.mk "block" ["b"] [Range.zero] Body.empty], Range.zero⟩
      ⟨[], [BlockHeaderSchema.mk "block" ["name"]]⟩ =
      (⟨[], [Block.mk "block" ["a"] [Range.zero] Body.empty,
             Block.mk "block" ["b"] [Range.zero]
               (Body.overlaid Body.empty [⟨"block.b.foo", ["foo"], "x"⟩]),
             Block.mk "block" ["b"] [Range.zero] Body.empty], Range.zero⟩, none, []) := by
  refine ⟨⟨rfl, rfl, by omega, ?_, by decide⟩, ?_⟩
  · intro b hb
    rcases List.mem_singleton.mp hb with h
    rw [h]
    decide
  · exact claim_C2_first_matching_block_only "block.b.foo" "x" "block" ["b", "foo"]
      ⟨[], [Block.mk "block" ["a"] [Range.zero] Body.empty,
            Block.mk "block" ["b"] [Range.zero] Body.empty,
            Block.mk "block" ["b"] [Range.zero] Body.empty], Range.zero⟩
      ⟨[], [BlockHeaderSchema.mk "block" ["name"]]⟩ (BlockHeaderSchema.mk "block" ["name"])
      [Block.mk "block" ["a"] [Range.zero] Body.empty]
      [Block.mk "block" ["b"] [Range.zero] Body.empty]
      (Block.mk "block" ["b"] [Range.zero] Body.empty)
      rfl rfl (by decide) rfl
      (by intro b hb; rcases List.mem_singleton.mp hb with h; rw [h]; decide)
      (by decide)

/-- C3: when the first step matches a block spec with `k` label names, at
least `2 + k` steps remain, and no existing block matches, exactly one new
block is appended at the end: type from the block spec, labels equal to the
`k` candidate steps, one zero-value label range per label, and a body equal
to the remaining-steps sub-overlay applied to an empty body; previously
existing blocks are unchanged and keep their order. -/
theorem claim_C3_new_block_appended (p v name : String) (rest : List String)
    (c : BodyContent) (s : BodySchema) (blockS : BlockHeaderSchema)
    (hattr : s.attributes.find? (fun attrS => attrS.name == name) = none)
    (hblk : s.blocks.find? (fun blockS => blockS.type == name) = some blockS)
    (hlen : 2 + blockS.labelNames.length ≤ rest.length + 1)
    (hnone : ∀ b ∈ c.blocks, (b.type == blockS.type &&
      labelsMatch b.labels (rest.take blockS.labelNames.length)) = false) :
    PartialApplyOverlay ⟨p, name :: rest, v⟩ c s =
      ({ c with blocks := c.blocks ++
        [Block.mk blockS.type (rest.take blockS.labelNames.length)
          (List.replicate blockS.labelNames.length Range.zero)
          (Body.overlaid Body.empty [⟨p, rest.drop blockS.labelNames.length, v⟩])] }, none, []) := by
  have hp := PAO_block_long ⟨p, name :: rest, v⟩ name rest c s blockS rfl hattr hblk hlen
  have hob := overlayBlocks_none blockS.type (rest.take blockS.labelNames.length)
    (subOverlay ⟨p, name :: rest, v⟩ (rest.drop blockS.labelNames.length)) c.blocks hnone
  rw [hp, hob]
  simp [ApplyOverlays, subOverlay]

theorem claim_C3_witness :
    (List.find? (fun attrS => attrS.name == "block") ([] : List AttributeSchema) = none ∧
     List.find? (fun blockS => blockS.type == "block")
       [BlockHeaderSchema.mk "block" ["name"]] = some (BlockHeaderSchema.mk "block" ["name"]) ∧
     2 + 1 ≤ 2 + 1 ∧
     (∀ b ∈ [Block.mk "block" ["a"] [Range.zero] Body.empty],
       (b.type == "block" && labelsMatch b.labels ["b"]) = false)) ∧
    PartialApplyOverlay ⟨"block.b.foo", ["block", "b", "foo"], "x"⟩
      ⟨[], [Block.mk "block" ["a"] [Range.zero] Body.empty], Range.zero⟩
      ⟨[], [BlockHeaderSchema.mk "block" ["name"]]⟩ =
      (⟨[], [Block.mk "block" ["a"] [Range.zero] Body.empty,
             Block.mk "block" ["b"] [Range.zero]
               (Body.overlaid Body.empty [⟨"block.b.foo", ["foo"], "x"⟩])], Range.zero⟩, none, []) := by
  refine ⟨⟨rfl, rfl, by omega, ?_⟩, ?_⟩
  · intro b hb
    rcases List.mem_singleton.mp hb with h
    rw [h]
    decide
  · exact claim_C3_new_block_appended "block.b.foo" "x" "block" ["b", "foo"]
      ⟨[], [Block.mk "block" ["a"] [Range.zero] Body.empty], Range.zero⟩
      ⟨[], [BlockHeaderSchema.mk "block" ["name"]]⟩ (BlockHeaderSchema.mk "block" ["name"])
      rfl rfl (by decide)
      (by intro b hb; rcases List.mem_singleton.mp hb with h; rw [h]; decide)

/-- C5: for every input token sequence and schema, `ExtractCLIOptions`
returns as its remaining-token result the original, unfiltered input token
sequence; tokens consumed as overlays are not removed. -/
theorem claim_C5_extract_returns_original_args (args : List String) (schema : BodySchema) :
    (ExtractCLIOptions args schema).2.1 = args := rfl

/-- C7: when the first step matches neither an attribute spec nor a block
spec, `PartialApplyOverlay` returns the content unchanged, the overlay
itself as leftover, and no diagnostics; under `ApplyOverlay` the same
non-match produces an unexpected-argument error diagnostic. -/
theorem claim_C7_nonmatch_partial_leftover_full_error (p v name : String)
    (rest : List String) (c : BodyContent) (s : BodySchema)
    (hattr : ∀ attrS ∈ s.attributes, attrS.name ≠ name)
    (hblk : ∀ blockS ∈ s.blocks, blockS.type ≠ name) :
    PartialApplyOverlay ⟨p, name :: rest, v⟩ c s = (c, some ⟨p, name :: rest, v⟩, []) ∧
    ApplyOverlay ⟨p, name :: rest, v⟩ c s = (c, [invalidArgError ⟨p, name :: rest, v⟩]) ∧
    (invalidArgError ⟨p, name :: rest, v⟩).severity = Severity.error ∧
    (invalidArgError ⟨p, name :: rest, v⟩).detail = "Unexpected argument \"" ++ p ++ "\"." := by
  have hfa : s.attributes.find? (fun attrS => attrS.name == name) = none := by
    rw [List.find?_eq_none]
    intro x hx
    simpa using hattr x hx
  have hfb : s.blocks.find? (fun blockS => blockS.type == name) = none := by
    rw [List.find?_eq_none]
    intro x hx
    simpa using hblk x hx
  have hp := PAO_nomatch ⟨p, name :: rest, v⟩ name rest c s rfl hfa hfb
  have ha := ApplyOverlay_of_some _ _ _ _ _ _ hp
  exact ⟨hp, by simpa using ha, rfl, rfl⟩

theorem claim_C7_witness :
    ((∀ attrS ∈ ([] : List AttributeSchema), attrS.name ≠ "x") ∧
     (∀ blockS ∈ ([] : List BlockHeaderSchema), blockS.type ≠ "x")) ∧
    (PartialApplyOverlay ⟨"x", ["x"], "v"⟩ ⟨[], [], Range.zero⟩ ⟨[], []⟩ =
       (⟨[], [], Range.zero⟩, some ⟨"x", ["x"], "v"⟩, []) ∧
     ApplyOverlay ⟨"x", ["x"], "v"⟩ ⟨[], [], Range.zero⟩ ⟨[], []⟩ =
       (⟨[], [], Range.zero⟩, [invalidArgError ⟨"x", ["x"], "v"⟩]) ∧
     (invalidArgError ⟨"x", ["x"], "v"⟩).severity = Severity.error ∧
     (invalidArgError ⟨"x", ["x"], "v"⟩).detail = "Unexpected argument \"" ++ "x" ++ "\".") :=
  ⟨⟨fun _ hx => absurd hx (List.not_mem_nil _), fun _ hx => absurd hx (List.not_mem_nil _)⟩,
   claim_C7_nonmatch_partial_leftover_full_error "x" "v" "x" [] ⟨[], [], Range.zero⟩ ⟨[], []⟩
     (fun _ hx => absurd hx (List.not_mem_nil _)) (fun _ hx => absurd hx (List.not_mem_nil _))⟩

/-- C10: the leftover returned by `PartialApplyOverlay` is either `none` or
the receiver overlay itself, unmodified; a truncated remainder overlay is
never handed back to the caller. -/
theorem claim_C10_leftover_all_or_nothing (o : CliArgOverlay) (c : BodyContent) (s : BodySchema) :
    (PartialApplyOverlay o c s).2.1 = none ∨ (PartialApplyOverlay o c s).2.1 = some o := by
  rcases hsteps : o.steps with _ | ⟨name, rest⟩
  · rw [PAO_nil o c s hsteps]
    left
    rfl
  · cases hattr : s.attributes.find? (fun attrS => attrS.name == name) with
    | some attrS =>
      by_cases hone : rest = []
      · subst hone
        rw [PAO_attr_single o name c s attrS hsteps hattr]
        left
        rfl
      · rw [PAO_attr_multi o name rest c s attrS hsteps hone hattr]
        left
        rfl
    | none =>
      cases hblks : s.blocks.find? (fun blockS => blockS.type == name) with
      | none =>
        rw [PAO_nomatch o name rest c s hsteps hattr hblks]
        right
        rfl
      | some blockS =>
        by_cases hshort : rest.length + 1 < 2 + blockS.labelNames.length
        · rw [PAO_block_short o name rest c s blockS hsteps hattr hblks hshort]
          left
          rfl
        · have hlen2 : 2 + blockS.labelNames.length ≤ rest.length + 1 := by omega
          rw [PAO_block_long o name rest c s blockS hsteps hattr hblks hlen2]
          cases hob : overlayBlocks blockS.type (rest.take blockS.labelNames.length)
              (subOverlay o (rest.drop blockS.labelNames.length)) c.blocks with
          | some newBlocks =>
            simp [hob]
          | none =>
            simp [hob]

theorem filterMap_guard_eq_filter_map {α β : Type} (p : α → Bool) (f : α → β) (l : List α) :
    l.filterMap (fun a => if p a then some (f a) else none) = (l.filter p).map f := by
  induction l with
  | nil => rfl
  | cons a l ih =>
    by_cases h : p a = true
    · simp [List.filterMap_cons, List.filter_cons, h, ih]
    · have h' : p a = false := by simpa using h
      simp [List.filterMap_cons, List.filter_cons, h', ih]

/-- C4: the composition view folds overlays strictly left to right, each
observing the previous output, so for two overlays on the same attribute
the last one wins: `[a=1, a=2]` decodes `a` to `"2"` and `[a=2, a=1]`
decodes `a` to `"1"`. -/
theorem claim_C4_last_overlay_wins (b : Body) (s : BodySchema) (a p1 p2 : String)
    (h : ∃ attrS ∈ s.attributes, attrS.name = a) :
    getAttr (((Body.overlaid b [⟨p1, [a], "1"⟩, ⟨p2, [a], "2"⟩]).Content s).1).attributes a =
      some (Attribute.mk a "2" Range.zero) ∧
    getAttr (((Body.overlaid b [⟨p1, [a], "2"⟩, ⟨p2, [a], "1"⟩]).Content s).1).attributes a =
      some (Attribute.mk a "1" Range.zero) := by
  obtain ⟨attrS, hmem, hname⟩ := h
  have hsome : ((schemaNoRequired s).attributes.find? (fun attrS => attrS.name == a)).isSome := by
    rw [List.find?_isSome]
    refine ⟨⟨attrS.name, false⟩, ?_, by simp [hname]⟩
    simp only [schemaNoRequired, List.mem_map]
    exact ⟨attrS, hmem, rfl⟩
  obtain ⟨x, hfind⟩ := Option.isSome_iff_exists.mp hsome
  have key0 : ∀ (c0 : BodyContent) (q1 q2 v1 v2 : String),
      getAttr ((ApplyOverlay ⟨q2, [a], v2⟩ (ApplyOverlay ⟨q1, [a], v1⟩ c0 (schemaNoRequired s)).1 (schemaNoRequired s)).1).attributes a = some (Attribute.mk a v2 Range.zero) := by
    intro c0 q1 q2 v1 v2
    rw [ApplyOverlay_of_none _ _ _ _ _ (PAO_attr_single ⟨q1, [a], v1⟩ a c0 (schemaNoRequired s) x rfl hfind)]
    simp only []
    rw [ApplyOverlay_of_none _ _ _ _ _ (PAO_attr_single ⟨q2, [a], v2⟩ a ({ c0 with attributes := setAttr c0.attributes a (Attribute.mk a v1 Range.zero) }) (schemaNoRequired s) x rfl hfind)]
    simp only []
    exact getAttr_setAttr _ _ _
  have key : ∀ (q1 q2 v1 v2 : String),
      getAttr (((Body.overlaid b [⟨q1, [a], v1⟩, ⟨q2, [a], v2⟩]).Content s).1).attributes a =
        some (Attribute.mk a v2 Range.zero) := by
    intro q1 q2 v1 v2
    rw [Content_overlaid_fst]
    have hfold : (foldApplyOverlays [⟨q1, [a], v1⟩, ⟨q2, [a], v2⟩] ((b.Content (schemaNoRequired s)).1) (schemaNoRequired s)).1 = (ApplyOverlay ⟨q2, [a], v2⟩ (ApplyOverlay ⟨q1, [a], v1⟩ ((b.Content (schemaNoRequired s)).1) (schemaNoRequired s)).1 (schemaNoRequired s)).1 := by
      simp [foldApplyOverlays]
    rw [hfold]
    exact key0 _ q1 q2 v1 v2
  exact ⟨key p1 p2 "1" "2", key p1 p2 "2" "1"⟩

theorem claim_C4_witness :
    (∃ attrS ∈ ([⟨"a", false⟩] : List AttributeSchema), attrS.name = "a") ∧
    (getAttr (((Body.overlaid (Body.raw [] [] Range.zero)
         [⟨"a", ["a"], "1"⟩, ⟨"a", ["a"], "2"⟩]).Content ⟨[⟨"a", false⟩], []⟩).1).attributes "a" =
       some (Attribute.mk "a" "2" Range.zero) ∧
     getAttr (((Body.overlaid (Body.raw [] [] Range.zero)
         [⟨"a", ["a"], "2"⟩, ⟨"a", ["a"], "1"⟩]).Content ⟨[⟨"a", false⟩], []⟩).1).attributes "a" =
       some (Attribute.mk "a" "1" Range.zero)) :=
  ⟨⟨⟨"a", false⟩, by simp, rfl⟩,
   claim_C4_last_overlay_wins (Body.raw [] [] Range.zero) ⟨[⟨"a", false⟩], []⟩ "a" "a" "a"
     ⟨⟨"a", false⟩, by simp, rfl⟩⟩

/-- C6: the composition view's full decode decodes the base body under a
relaxed schema with all required flags cleared, folds every overlay over
the result, and then appends exactly one missing-required-argument error
per originally-required attribute absent from the final content, anchored
at the base document's missing-item location; required-ness is never
enforced before overlay application (a source body decoded under the
relaxed schema yields no missing-required diagnostic). -/
theorem claim_C6_required_enforced_after_overlays (inner : Body) (ovs : List CliArgOverlay)
    (s : BodySchema) :
    (∀ a ∈ (schemaNoRequired s).attributes, a.required = false) ∧
    ((Body.overlaid inner ovs).Content s).1 =
      (foldApplyOverlays ovs (inner.Content (schemaNoRequired s)).1 (schemaNoRequired s)).1 ∧
    ((Body.overlaid inner ovs).Content s).2 =
      (inner.Content (schemaNoRequired s)).2 ++
      (foldApplyOverlays ovs (inner.Content (schemaNoRequired s)).1 (schemaNoRequired s)).2 ++
      (s.attributes.filter (fun attrS => attrS.required && !(getAttr ((foldApplyOverlays ovs (inner.Content (schemaNoRequired s)).1 (schemaNoRequired s)).1).attributes attrS.name).isSome)).map (fun attrS => missingRequiredDiag attrS.name inner.MissingItemRange) ∧
    (∀ (attrs : List Attribute) (blocks : List Block) (missing : Range),
      ∀ d ∈ ((Body.raw attrs blocks missing).Content (schemaNoRequired s)).2,
        d.summary ≠ "Missing required argument") := by
  refine ⟨?_, Content_overlaid_fst inner ovs s, ?_, ?_⟩
  · intro a ha
    simp only [schemaNoRequired, List.mem_map] at ha
    obtain ⟨x, _, rfl⟩ := ha
    rfl
  · simp only [Body.Content, prepareContent]
    rw [filterMap_guard_eq_filter_map]
  · intro attrs blocks missing d hd
    simp only [Body.Content, rawContent] at hd
    have hnil : (schemaNoRequired s).attributes.filterMap (fun sa =>
        if sa.required && !attrs.any (fun a => a.name == sa.name) then
          some (missingRequiredDiag sa.name missing)
        else none) = [] := by
      simp [schemaNoRequired, List.filterMap_map, Function.comp]
    rw [hnil] at hd
    rw [List.append_nil] at hd
    rcases List.mem_append.mp hd with h | h
    · obtain ⟨x, _, rfl⟩ := List.mem_map.mp h
      exact (by decide : ("Unsupported argument" : String) ≠ "Missing required argument")
    · obtain ⟨x, _, rfl⟩ := List.mem_map.mp h
      exact (by decide : ("Unsupported block type" : String) ≠ "Missing required argument")

/-- C8: sub-overlays keep the full original dotted path for diagnostics:
`subOverlay` preserves `fullPath` (and `val`), truncating only `steps`;
concretely, the token `service.http.web_proxy.invalid=foo` applied against
a schema declaring block type `service` with labels `(type, name)` whose
nested schema does not declare `invalid` produces an error diagnostic
whose text contains the complete path `service.http.web_proxy.invalid`. -/
theorem claim_C8_suboverlay_keeps_full_path :
    (∀ (o : CliArgOverlay) (rs : List String),
      (subOverlay o rs).fullPath = o.fullPath ∧ (subOverlay o rs).val = o.val ∧
      (subOverlay o rs).steps = rs) ∧
    ParseCLIArgument "service.http.web_proxy.invalid=foo" =
      (some ⟨"service.http.web_proxy.invalid",
        ["service", "http", "web_proxy", "invalid"], "foo"⟩, []) ∧
    (((Body.overlaid (Body.raw [] [] Range.zero)
        [⟨"service.http.web_proxy.invalid", ["service", "http", "web_proxy", "invalid"], "foo"⟩]).Content
          ⟨[], [⟨"service", ["type", "name"]⟩]⟩).1).blocks =
      [Block.mk "service" ["http", "web_proxy"] [Range.zero, Range.zero]
        (Body.overlaid Body.empty
          [⟨"service.http.web_proxy.invalid", ["invalid"], "foo"⟩])] ∧
    ∃ d ∈ ((Body.overlaid Body.empty
        [⟨"service.http.web_proxy.invalid", ["invalid"], "foo"⟩]).Content
        (BodySchema.mk [] [])).2,
      d.severity = Severity.error ∧
      ∃ pre post, d.detail = pre ++ "service.http.web_proxy.invalid" ++ post := by
  refine ⟨fun o rs => ⟨rfl, rfl, rfl⟩, by decide, rfl, ?_⟩
  refine ⟨invalidArgError ⟨"service.http.web_proxy.invalid", ["invalid"], "foo"⟩, ?_, rfl,
    "Unexpected argument \"", "\".", rfl⟩
  have he : ((Body.overlaid Body.empty
      [⟨"service.http.web_proxy.invalid", ["invalid"], "foo"⟩]).Content
      (BodySchema.mk [] [])).2 =
      [invalidArgError ⟨"service.http.web_proxy.invalid", ["invalid"], "foo"⟩] := rfl
  rw [he]
  exact List.mem_singleton.mpr rfl

/-- C9: applying the same single overlay twice in sequence yields the same
final decoded content as applying it once: equal attribute maps and, to
any decode depth `n` and under every schema, equal block headers in the
same order with observationally equal nested bodies. -/
theorem claim_C9_single_overlay_idempotent (n : Nat) (b : Body) (o : CliArgOverlay)
    (s : BodySchema) :
    ContentEquivWith (BodyEquivN n) (((ApplyOverlays b [o, o]).Content s).1)
      (((ApplyOverlays b [o]).Content s).1) := by
  have ha : ApplyOverlays b [o, o] = Body.overlaid b [o, o] := rfl
  have hb : ApplyOverlays b [o] = Body.overlaid b [o] := rfl
  rw [ha, hb, Content_overlaid_fst, Content_overlaid_fst]
  have hfold2 : (foldApplyOverlays [o, o] ((b.Content (schemaNoRequired s)).1) (schemaNoRequired s)).1 = (ApplyOverlay o (ApplyOverlay o ((b.Content (schemaNoRequired s)).1) (schemaNoRequired s)).1 (schemaNoRequired s)).1 := by
    simp [foldApplyOverlays]
  have hfold1 : (foldApplyOverlays [o] ((b.Content (schemaNoRequired s)).1) (schemaNoRequired s)).1 = (ApplyOverlay o ((b.Content (schemaNoRequired s)).1) (schemaNoRequired s)).1 := by
    simp [foldApplyOverlays]
  rw [hfold2, hfold1]
  exact ApplyOverlay_twice_equiv o.steps.length o (Nat.le_refl _) n _ _
